import Mathlib

/-!
Verification of the concurrent batch-processing engine in
`run_flash_searcher_mm.py` (shallow embedding).

Work items and result records are Python dicts; we model them as
association lists of string key/value pairs where a later binding
overrides an earlier one (the semantics of a Python dict literal with
an unpacking such as `{"a": x, **rest}`).
-/

/-- A work item as read by `process_item`: a dict whose keys may be
absent.  `question` and `answer` are accessed with `item["..."]`
(raising on absence), `file_name` with `item.get` (truthiness test). -/
structure Item where
  question : Option String
  answer : Option String
  file_name : Option String
deriving DecidableEq, Repr

/-- A record (a Python dict) : list of key/value bindings, later wins. -/
abbrev Dict := List (String × String)

/-- Dict lookup with the later-binding-wins rule of Python dict
construction: `dictGet d k` is the value of the last binding of `k`. -/
def dictGet : Dict → String → Option String
  | [], _ => none
  | kv :: rest, k =>
    match dictGet rest k with
    | some v => some v
    | none => if kv.1 = k then some kv.2 else none

/-- Python truthiness of `item.get("file_name")`: absent (`None`) and the
empty string are falsy. -/
def truthyFile : Option String → Bool
  | none => false
  | some s => s ≠ ""

/-- The literal text appended before a zip archive description
(line 63 of the source). -/
def zipHeader : String :=
  "\n\nTo solve the task above, you will have to use these attached files:\n"

/-- The literal text appended before a single-file description
(line 68 of the source). -/
def singleHeader : String :=
  "\n\nTo solve the task above, you will have to use this attached file:"

/-- `".zip" in file_name` : substring containment, via `splitOn`. -/
def hasZip (fn : String) : Bool :=
  (fn.splitOn ".zip").length > 1

/-- The augmented question built when `item.get("file_name")` is truthy:
the original question extended by a header and the attachment
description text (lines 60-71 of the source). -/
def augmentQuestion (q fn desc : String) : String :=
  if hasZip fn then q ++ zipHeader ++ desc else q ++ singleHeader ++ desc

/-- Behaviour of the external collaborators for one work item:
  * `ctor`: outcome of `MMSearchAgent(...)` construction
    (`some msg` = the constructor raises with that message);
  * `describe`: outcome of `get_zip_description` /
    `get_single_file_description` (raises or returns text);
  * `agent`: outcome of the processing call `search_agent(question)`
    (raises with (message, formatted traceback) or returns a result dict). -/
structure ExtBehavior where
  ctor : Option String
  describe : Except String String
  agent : Except (String × String) Dict

/-- The dict returned by `process_item` on success (source lines 91-96):
`{"question": q, "golden_answer": g, "status": "success", **result}` —
the worker's bindings come last, so they override on key collision. -/
def successRecord (q golden : String) (result : Dict) : Dict :=
  [("question", q), ("golden_answer", golden), ("status", "success")] ++ result

/-- The dict returned by `process_item` when `search_agent` raises
(source lines 83-89). -/
def failedRecord (q golden err trace : String) : Dict :=
  [("question", q), ("golden_answer", golden), ("error", err),
   ("error_trace", trace), ("status", "failed")]

/-- `process_item` (source lines 48-96).  `Except.error m` models an
exception with message `m` escaping the function (nothing before the
`try` on line 73 is protected): the `MMSearchAgent` constructor,
the `item["question"]` and `item["answer"]` key accesses, and the
attachment-description calls all run unprotected; only the
`search_agent(question)` call is wrapped and converted into a
`failed` record. -/
def process_item (item : Item) (ext : ExtBehavior) : Except String Dict :=
  match ext.ctor with
  | some msg => Except.error msg
  | none =>
    match item.question with
    | none => Except.error "KeyError: question"
    | some q0 =>
      match item.answer with
      | none => Except.error "KeyError: answer"
      | some golden =>
        let qRes : Except String String :=
          if truthyFile item.file_name then
            match item.file_name with
            | some fn =>
              match ext.describe with
              | Except.error m => Except.error m
              | Except.ok d => Except.ok (augmentQuestion q0 fn d)
            | none => Except.ok q0
          else Except.ok q0
        match qRes with
        | Except.error m => Except.error m
        | Except.ok q =>
          match ext.agent with
          | Except.error (m, tr) => Except.ok (failedRecord q golden m tr)
          | Except.ok result => Except.ok (successRecord q golden result)

/-- The set of already-done dedup keys (source line 150):
`set([item.get("question") for item in out_data])`, as a list with
membership. -/
def doneQuestions (out_data : List Dict) : List (Option String) :=
  out_data.map (fun r => dictGet r "question")

/-- The pending work list (source line 151):
`[item for item in data if item.get("question") not in done_questions]`. -/
def pendingItems (data : List Item) (out_data : List Dict) : List Item :=
  data.filter (fun it => ! (doneQuestions out_data).contains it.question)

/-- The Completion Ledger load (source lines 139-148): `try` to parse the
prior output file, `except Exception: out_data = []`.  The parameter is
the outcome of the parse. -/
def loadOutput (parse : Except String (List Dict)) : List Dict :=
  match parse with
  | Except.ok l => l
  | Except.error _ => []

/-- One state of the array-encoded output file as seen by `json.load`. -/
inductive ArrayFile
  | missing
  | unparsable
  | parsed (records : List Dict)
deriving DecidableEq, Repr

/-- The read step of the array branch of `safe_write`
(source lines 161-165): `json.load`, with `FileNotFoundError` and
`JSONDecodeError` both giving `existing_data = []`. -/
def readArray : ArrayFile → List Dict
  | ArrayFile.missing => []
  | ArrayFile.unparsable => []
  | ArrayFile.parsed l => l

/-- The array branch of `safe_write` (source lines 159-176): read the
whole document, append the record in memory, dump the whole list to a
temporary file, then atomically rename it over the destination.  The
result is the destination state after the rename. -/
def safe_write_json (dest : ArrayFile) (r : Dict) : ArrayFile :=
  let existing := readArray dest
  let updated := existing ++ [r]
  let temp := ArrayFile.parsed updated
  temp

/-- Modelled from the spec: `write_jsonl(path, records, "a")` from
`utils` (a repository module not present in the sources) opens the
store for append and writes one serialized record plus a line
terminator per given record, reading nothing.  The file is the list of
records its lines hold. -/
def write_jsonl_append (file : List Dict) (records : List Dict) : List Dict :=
  file ++ records

/-- The line branch of `safe_write` (source lines 177-179):
`write_jsonl(args.outfile, [result], "a")`. -/
def safe_write_jsonl (file : List Dict) (r : Dict) : List Dict :=
  write_jsonl_append file [r]

/-- The dispatcher's collection loop (source lines 198-202): take each
task's outcome in completion order; `future.result()` re-raises an
escaped exception (aborting the loop); otherwise, when the returned
dict is truthy (non-empty), append it to the results and write it to
the store.  The accumulator is the parsed content of the output store;
both store encodings append exactly the one record under the lock. -/
def collectAndWrite (store : List Dict) : List (Except String Dict) → Except String (List Dict)
  | [] => Except.ok store
  | Except.error m :: _ => Except.error m
  | Except.ok r :: rest =>
    if r.isEmpty then collectAndWrite store rest
    else collectAndWrite (store ++ [r]) rest

/-- A full dispatch round: the worker tasks of the items of `order`
(the nondeterministic completion order of the pool) feed the
collection loop, starting from the parsed prior store content. -/
def runEngine (order : List Item) (ext : Item → ExtBehavior) (store : List Dict) :
    Except String (List Dict) :=
  collectAndWrite store (order.map (fun it => process_item it (ext it)))

/-- The record `process_item` returns for an item with no (truthy)
attachment whose keys are present: a `failed` record when the
processing call raises, a merged `success` record when it returns. -/
def recordNoAttach (q a : String) (agent : Except (String × String) Dict) : Dict :=
  match agent with
  | Except.error (m, tr) => failedRecord q a m tr
  | Except.ok res => successRecord q a res

/-- The question text a worker task hands to the processing call and
writes into the record's `question` field for an item whose task runs
to completion: the item's question, extended by the attachment
description when `file_name` is truthy. -/
def storedQuestionText (it : Item) (ext : ExtBehavior) : String :=
  if truthyFile it.file_name then
    augmentQuestion (it.question.getD "") (it.file_name.getD "")
      (match ext.describe with
        | Except.ok d => d
        | Except.error _ => "")
  else it.question.getD ""

section HelperLemmas

theorem dictGet_append (xs ys : Dict) (k : String) :
    dictGet (xs ++ ys) k =
      match dictGet ys k with
      | some v => some v
      | none => dictGet xs k := by
  induction xs with
  | nil => cases h : dictGet ys k <;> simp [dictGet, h]
  | cons kv rest ih =>
    simp only [List.cons_append, dictGet, ih]
    cases h : dictGet ys k <;> cases h2 : dictGet rest k <;> simp [ih, h, h2]

theorem dictGet_successRecord_of_res (q g k v : String) (res : Dict)
    (h : dictGet res k = some v) :
    dictGet (successRecord q g res) k = some v := by
  rw [successRecord, dictGet_append, h]

theorem dictGet_successRecord_question (q g : String) (res : Dict)
    (h : dictGet res "question" = none) :
    dictGet (successRecord q g res) "question" = some q := by
  rw [successRecord, dictGet_append, h]
  simp [dictGet]

theorem dictGet_successRecord_golden (q g : String) (res : Dict)
    (h : dictGet res "golden_answer" = none) :
    dictGet (successRecord q g res) "golden_answer" = some g := by
  rw [successRecord, dictGet_append, h]
  simp [dictGet]

theorem dictGet_successRecord_status (q g : String) (res : Dict)
    (h : dictGet res "status" = none) :
    dictGet (successRecord q g res) "status" = some "success" := by
  rw [successRecord, dictGet_append, h]
  simp [dictGet]

theorem process_item_ctor_raise (it : Item) (ext : ExtBehavior) (msg : String)
    (hc : ext.ctor = some msg) :
    process_item it ext = Except.error msg := by
  simp [process_item, hc]

theorem process_item_no_question (it : Item) (ext : ExtBehavior)
    (hc : ext.ctor = none) (hq : it.question = none) :
    process_item it ext = Except.error "KeyError: question" := by
  simp [process_item, hc, hq]

theorem process_item_no_answer (it : Item) (ext : ExtBehavior) (q : String)
    (hc : ext.ctor = none) (hq : it.question = some q) (ha : it.answer = none) :
    process_item it ext = Except.error "KeyError: answer" := by
  simp [process_item, hc, hq, ha]

theorem process_item_no_attach (it : Item) (ext : ExtBehavior) (q a : String)
    (hc : ext.ctor = none) (hq : it.question = some q) (ha : it.answer = some a)
    (hf : truthyFile it.file_name = false) :
    process_item it ext = Except.ok (recordNoAttach q a ext.agent) := by
  cases hag : ext.agent with
  | error p =>
    obtain ⟨m, tr⟩ := p
    simp [process_item, recordNoAttach, hc, hq, ha, hf, hag]
  | ok res => simp [process_item, recordNoAttach, hc, hq, ha, hf, hag]

theorem process_item_attach_ok (it : Item) (ext : ExtBehavior) (q a fn d : String)
    (hc : ext.ctor = none) (hq : it.question = some q) (ha : it.answer = some a)
    (hfn : it.file_name = some fn) (hne : fn ≠ "") (hd : ext.describe = Except.ok d) :
    process_item it ext = Except.ok (recordNoAttach (augmentQuestion q fn d) a ext.agent) := by
  cases hag : ext.agent with
  | error p =>
    obtain ⟨m, tr⟩ := p
    simp [process_item, recordNoAttach, truthyFile, hc, hq, ha, hfn, hne, hd, hag]
  | ok res => simp [process_item, recordNoAttach, truthyFile, hc, hq, ha, hfn, hne, hd, hag]

theorem process_item_attach_raise (it : Item) (ext : ExtBehavior) (q a fn e : String)
    (hc : ext.ctor = none) (hq : it.question = some q) (ha : it.answer = some a)
    (hfn : it.file_name = some fn) (hne : fn ≠ "") (hd : ext.describe = Except.error e) :
    process_item it ext = Except.error e := by
  simp [process_item, truthyFile, hc, hq, ha, hfn, hne, hd]

theorem recordNoAttach_ne_nil (q a : String) (agent : Except (String × String) Dict) :
    recordNoAttach q a agent ≠ [] := by
  cases agent with
  | error p => obtain ⟨m, tr⟩ := p; simp [recordNoAttach, failedRecord]
  | ok res => simp [recordNoAttach, successRecord]

theorem recordNoAttach_question (q a : String) (agent : Except (String × String) Dict)
    (h : ∀ res, agent = Except.ok res → dictGet res "question" = none) :
    dictGet (recordNoAttach q a agent) "question" = some q := by
  cases agent with
  | error p => obtain ⟨m, tr⟩ := p; simp [recordNoAttach, failedRecord, dictGet]
  | ok res =>
    exact dictGet_successRecord_question q a res (h res rfl)

theorem collectAndWrite_ok_map (rs : List Dict) (store : List Dict)
    (h : ∀ r ∈ rs, r ≠ []) :
    collectAndWrite store (rs.map Except.ok) = Except.ok (store ++ rs) := by
  induction rs generalizing store with
  | nil => simp [collectAndWrite]
  | cons r rest ih =>
    have hr : r.isEmpty = false := by
      cases r with
      | nil => exact absurd rfl (h [] (by simp))
      | cons x xs => rfl
    simp only [List.map_cons, collectAndWrite, hr, Bool.false_eq_true, if_false]
    rw [ih (store ++ [r]) (fun r hr2 => h r (by simp [hr2]))]
    simp

theorem runEngine_ok (order : List Item) (ext : Item → ExtBehavior) (store : List Dict)
    (f : Item → Dict)
    (h : ∀ it ∈ order, process_item it (ext it) = Except.ok (f it))
    (hne : ∀ it ∈ order, f it ≠ []) :
    runEngine order ext store = Except.ok (store ++ order.map f) := by
  unfold runEngine
  have hmap : order.map (fun it => process_item it (ext it)) = (order.map f).map Except.ok := by
    rw [List.map_map]
    exact List.map_congr_left h
  rw [hmap]
  apply collectAndWrite_ok_map
  intro r hr
  obtain ⟨it, hit, rfl⟩ := List.mem_map.1 hr
  exact hne it hit

theorem pendingItems_nil_out (data : List Item) : pendingItems data [] = data := by
  simp [pendingItems, doneQuestions]

theorem truthyFile_eq_true (o : Option String) (h : truthyFile o = true) :
    ∃ fn, o = some fn ∧ fn ≠ "" := by
  cases o with
  | none => simp [truthyFile] at h
  | some s => exact ⟨s, rfl, by simpa [truthyFile] using h⟩

theorem augmentQuestion_ne (q fn d : String) : augmentQuestion q fn d ≠ q := by
  intro heq
  have hlen : (augmentQuestion q fn d).length = q.length := congrArg String.length heq
  have hz : 0 < zipHeader.length := by decide
  have hs : 0 < singleHeader.length := by decide
  rw [augmentQuestion] at hlen
  by_cases hzip : hasZip fn
  · rw [if_pos hzip] at hlen
    simp only [String.length_append] at hlen
    omega
  · rw [if_neg hzip] at hlen
    simp only [String.length_append] at hlen
    omega

end HelperLemmas

/-- Claim C5: for array-encoded output, `safe_write` reads the full
existing document (a missing or unparsable file counting as the empty
list), appends the record in memory, writes the whole list to a
temporary file and atomically renames it over the destination, so
after a successful append the store parses to the old record sequence
extended with exactly the one new record. -/
theorem array_append_atomic (f : ArrayFile) (r : Dict) :
    safe_write_json f r = ArrayFile.parsed (readArray f ++ [r]) ∧
    readArray (safe_write_json f r) = readArray f ++ [r] :=
  ⟨rfl, rfl⟩

/-- Claim C7: a Completion Ledger load failure never aborts the run:
the prior output is treated as the empty list, and then every input
item is pending. -/
theorem load_failure_all_pending (data : List Item) (e : String) :
    loadOutput (Except.error e) = [] ∧
    pendingItems data (loadOutput (Except.error e)) = data :=
  ⟨rfl, pendingItems_nil_out data⟩

/-- Claim C8: for line-encoded output, `safe_write` appends exactly one
record after the existing content; the previous content is unchanged
as a prefix of the new store, which is one record longer — the store
is never truncated or reordered. -/
theorem line_append_frame (file : List Dict) (r : Dict) :
    safe_write_jsonl file r = file ++ [r] ∧
    (safe_write_jsonl file r).take file.length = file ∧
    (safe_write_jsonl file r).length = file.length + 1 :=
  ⟨rfl, List.take_left file [r], by simp [safe_write_jsonl, write_jsonl_append]⟩

/-- Claim C2: resume idempotence — when every input item's question
already appears in the prior output store on a record with status
`success`, the pending list after Completion Ledger filtering is
empty, so a second run produces no new ResultRecords. -/
theorem resume_idempotent (data : List Item) (out : List Dict)
    (h : ∀ it ∈ data, ∃ r ∈ out,
      dictGet r "question" = it.question ∧ dictGet r "status" = some "success") :
    pendingItems data out = [] := by
  rw [pendingItems]
  apply List.filter_eq_nil_iff.mpr
  intro it hit
  obtain ⟨r, hr, hq, _⟩ := h it hit
  have hmem : it.question ∈ doneQuestions out := by
    rw [doneQuestions]
    exact hq ▸ List.mem_map_of_mem (fun r => dictGet r "question") hr
  simp [List.elem_iff, hmem]

/-- Witness for C2 at a concrete one-item input and matching store. -/
theorem resume_idempotent_witness :
    pendingItems [⟨some "Q1", some "A1", none⟩]
      [[("question", "Q1"), ("golden_answer", "A1"), ("status", "success")]] = [] := by
  apply resume_idempotent
  intro it hit
  refine ⟨[("question", "Q1"), ("golden_answer", "A1"), ("status", "success")], by simp, ?_, by decide⟩
  have : it = (⟨some "Q1", some "A1", none⟩ : Item) := by
    simpa using hit
  subst this
  decide

/-- Claim C6: a work item is pending iff its question value is absent
from the question values of the prior output store; the statuses of
the prior records play no part, so a record with status `failed`
whose question matches keeps the item out of the pending list. -/
theorem pending_iff_question_absent (data : List Item) (out : List Dict) (it : Item) :
    (it ∈ pendingItems data out ↔
      it ∈ data ∧ it.question ∉ out.map (fun r => dictGet r "question")) ∧
    (∀ r ∈ out, dictGet r "status" = some "failed" →
      dictGet r "question" = it.question → it ∉ pendingItems data out) := by
  have hiff : it ∈ pendingItems data out ↔
      it ∈ data ∧ it.question ∉ out.map (fun r => dictGet r "question") := by
    rw [pendingItems, List.mem_filter]
    simp [doneQuestions, List.elem_iff]
  refine ⟨hiff, ?_⟩
  intro r hr _ hq hpend
  exact (hiff.1 hpend).2 (hq ▸ List.mem_map_of_mem (fun r => dictGet r "question") hr)

/-- Witness for C6: a previously failed question is skipped on resume. -/
theorem pending_iff_question_absent_witness :
    (⟨some "Q1", some "A1", none⟩ : Item) ∉
      pendingItems [⟨some "Q1", some "A1", none⟩]
        [[("question", "Q1"), ("error", "boom"), ("status", "failed")]] := by
  have h := pending_iff_question_absent [⟨some "Q1", some "A1", none⟩]
    [[("question", "Q1"), ("error", "boom"), ("status", "failed")]]
    ⟨some "Q1", some "A1", none⟩
  exact h.2 [("question", "Q1"), ("error", "boom"), ("status", "failed")]
    (by simp) (by decide) (by decide)

/-- Counterexample to claim C9 as stated: when the worker's structured
output itself binds `question`, the success-path merge
`{"question": ..., **result}` overrides the stored question, so a
truthy-attachment item's record carries the worker's value — not the
original question extended with the attachment description — and that
value is the dedup key the record contributes to a later run's
CompletionSet. -/
theorem stored_question_override_cx :
    process_item ⟨some "Qa", some "Ab", some "pic.png"⟩
        ⟨none, Except.ok "DD", Except.ok [("question", "HIJACK")]⟩ =
      Except.ok (successRecord (augmentQuestion "Qa" "pic.png" "DD") "Ab"
        [("question", "HIJACK")]) ∧
    dictGet (successRecord (augmentQuestion "Qa" "pic.png" "DD") "Ab"
        [("question", "HIJACK")]) "question" = some "HIJACK" ∧
    doneQuestions [successRecord (augmentQuestion "Qa" "pic.png" "DD") "Ab"
        [("question", "HIJACK")]] = [some "HIJACK"] ∧
    "HIJACK" ≠ augmentQuestion "Qa" "pic.png" "DD" := by
  refine ⟨rfl, by decide, by simp [doneQuestions, successRecord, dictGet], ?_⟩
  intro h
  have hlen := congrArg String.length h
  have hz : 6 < zipHeader.length := by decide
  have hs : 6 < singleHeader.length := by decide
  have hh : ("HIJACK" : String).length = 6 := by decide
  rw [augmentQuestion] at hlen
  by_cases hzip : hasZip "pic.png"
  · rw [if_pos hzip] at hlen
    simp only [String.length_append] at hlen
    omega
  · rw [if_neg hzip] at hlen
    simp only [String.length_append] at hlen
    omega

/-- Claim C9 (amended): provided the worker's structured output does
not itself bind `question`, when `file_name` is present and truthy the
question stored in the item's ResultRecord — and hence the dedup key
it contributes to the CompletionSet of a later run — is the original
question extended with the attachment-description text, and differs
from the original question; without a truthy `file_name` the stored
question is the input question unchanged. -/
theorem stored_question_key (it : Item) (ext : ExtBehavior) (q a d : String)
    (hq : it.question = some q) (ha : it.answer = some a) (hc : ext.ctor = none)
    (hnoov : ∀ res, ext.agent = Except.ok res → dictGet res "question" = none) :
    (∀ fn, it.file_name = some fn → fn ≠ "" → ext.describe = Except.ok d →
      ∃ rec, process_item it ext = Except.ok rec ∧
        dictGet rec "question" = some (augmentQuestion q fn d) ∧
        augmentQuestion q fn d ≠ q ∧
        doneQuestions [rec] = [some (augmentQuestion q fn d)]) ∧
    (truthyFile it.file_name = false →
      ∃ rec, process_item it ext = Except.ok rec ∧
        dictGet rec "question" = some q ∧
        doneQuestions [rec] = [some q]) := by
  constructor
  · intro fn hfn hne hd
    refine ⟨recordNoAttach (augmentQuestion q fn d) a ext.agent,
      process_item_attach_ok it ext q a fn d hc hq ha hfn hne hd, ?_, augmentQuestion_ne q fn d, ?_⟩
    · exact recordNoAttach_question (augmentQuestion q fn d) a ext.agent hnoov
    · simp [doneQuestions, recordNoAttach_question (augmentQuestion q fn d) a ext.agent hnoov]
  · intro hf
    refine ⟨recordNoAttach q a ext.agent,
      process_item_no_attach it ext q a hc hq ha hf, ?_, ?_⟩
    · exact recordNoAttach_question q a ext.agent hnoov
    · simp [doneQuestions, recordNoAttach_question q a ext.agent hnoov]

/-- Witness for C9 at a concrete item with a single-file attachment. -/
theorem stored_question_key_witness :
    ∃ rec, process_item ⟨some "Q", some "A", some "img.png"⟩
        ⟨none, Except.ok "DESC", Except.ok [("agent_result", "ok")]⟩ = Except.ok rec ∧
      dictGet rec "question" = some (augmentQuestion "Q" "img.png" "DESC") ∧
      augmentQuestion "Q" "img.png" "DESC" ≠ "Q" ∧
      doneQuestions [rec] = [some (augmentQuestion "Q" "img.png" "DESC")] := by
  have h := stored_question_key ⟨some "Q", some "A", some "img.png"⟩
    ⟨none, Except.ok "DESC", Except.ok [("agent_result", "ok")]⟩ "Q" "A" "DESC"
    rfl rfl rfl (by intro res hres; cases hres; decide)
  exact h.1 "img.png" rfl (by decide) rfl

/-- Claim C10: `process_item` reads `item["question"]` and
`item["answer"]` before its exception handler, so for an item lacking
either key the resulting KeyError is not converted into a failed
ResultRecord: it escapes the worker task and is re-raised by
`future.result()`, aborting the dispatcher's collection loop. -/
theorem missing_key_escapes (it : Item) (ext : ExtBehavior)
    (hc : ext.ctor = none) (h : it.question = none ∨ it.answer = none) :
    ∃ m, process_item it ext = Except.error m ∧
      (∀ store rest, collectAndWrite store (process_item it ext :: rest) = Except.error m) := by
  have herr : ∃ m, process_item it ext = Except.error m := by
    cases hq : it.question with
    | none => exact ⟨"KeyError: question", process_item_no_question it ext hc hq⟩
    | some q =>
      cases ha : it.answer with
      | none => exact ⟨"KeyError: answer", process_item_no_answer it ext q hc hq ha⟩
      | some a =>
        cases h with
        | inl h1 => exact absurd hq (h1 ▸ by simp)
        | inr h2 => exact absurd ha (h2 ▸ by simp)
  obtain ⟨m, hm⟩ := herr
  refine ⟨m, hm, ?_⟩
  intro store rest
  rw [hm]
  rfl

/-- Witness for C10: an item missing its `answer` key aborts the
collection loop. -/
theorem missing_key_escapes_witness :
    ∃ m, process_item ⟨some "Q", none, none⟩ ⟨none, Except.ok "", Except.ok []⟩ =
        Except.error m ∧
      (∀ store rest,
        collectAndWrite store
          (process_item ⟨some "Q", none, none⟩ ⟨none, Except.ok "", Except.ok []⟩ :: rest) =
          Except.error m) :=
  missing_key_escapes ⟨some "Q", none, none⟩ ⟨none, Except.ok "", Except.ok []⟩
    rfl (Or.inr rfl)

/-- Counterexample to claim C1 as stated: an exception raised while
describing an attachment (step 2) is not converted into a failed
ResultRecord — `process_item` itself raises, and the dispatcher's
collection loop aborts before handling the remaining task. -/
theorem attach_exception_escapes_cx :
    process_item ⟨some "Q", some "A", some "file.png"⟩
        ⟨none, Except.error "describe boom", Except.ok [("agent_result", "ok")]⟩ =
      Except.error "describe boom" ∧
    collectAndWrite []
      [process_item ⟨some "Q", some "A", some "file.png"⟩
          ⟨none, Except.error "describe boom", Except.ok [("agent_result", "ok")]⟩,
       process_item ⟨some "Q2", some "A2", none⟩
          ⟨none, Except.ok "", Except.ok [("agent_result", "ok")]⟩] =
      Except.error "describe boom" := by
  constructor <;> rfl

/-- Claim C1 (amended): only an exception raised by the processing call
itself (step 3) is caught at the task boundary and converted into a
`failed` ResultRecord carrying its message and traceback; exceptions
raised during agent construction or attachment description are not
caught and escape the worker task. -/
theorem failure_isolation_boundary (it : Item) (ext : ExtBehavior) (q a m tr : String)
    (hq : it.question = some q) (ha : it.answer = some a) :
    (ext.ctor = none → ext.agent = Except.error (m, tr) → truthyFile it.file_name = false →
      process_item it ext = Except.ok (failedRecord q a m tr) ∧
      dictGet (failedRecord q a m tr) "status" = some "failed" ∧
      dictGet (failedRecord q a m tr) "error" = some m ∧
      dictGet (failedRecord q a m tr) "error_trace" = some tr) ∧
    (ext.ctor = none → ext.agent = Except.error (m, tr) →
      ∀ fn d, it.file_name = some fn → fn ≠ "" → ext.describe = Except.ok d →
        process_item it ext = Except.ok (failedRecord (augmentQuestion q fn d) a m tr)) ∧
    (ext.ctor = none → ∀ fn e, it.file_name = some fn → fn ≠ "" →
      ext.describe = Except.error e → process_item it ext = Except.error e) ∧
    (∀ msg, ext.ctor = some msg → process_item it ext = Except.error msg) := by
  refine ⟨?_, ?_, ?_, ?_⟩
  · intro hc hag hf
    have h := process_item_no_attach it ext q a hc hq ha hf
    rw [hag] at h
    exact ⟨h, by simp [failedRecord, dictGet], by simp [failedRecord, dictGet],
      by simp [failedRecord, dictGet]⟩
  · intro hc hag fn d hfn hne hd
    have h := process_item_attach_ok it ext q a fn d hc hq ha hfn hne hd
    rw [hag] at h
    exact h
  · intro hc fn e hfn hne hd
    exact process_item_attach_raise it ext q a fn e hc hq ha hfn hne hd
  · intro msg hc
    exact process_item_ctor_raise it ext msg hc

/-- Witness for the amended C1: a raising processing call becomes a
`failed` record with the message and traceback. -/
theorem failure_isolation_boundary_witness :
    process_item ⟨some "W", some "B", none⟩ ⟨none, Except.ok "", Except.error ("em", "et")⟩ =
      Except.ok (failedRecord "W" "B" "em" "et") ∧
    dictGet (failedRecord "W" "B" "em" "et") "status" = some "failed" := by
  have h := failure_isolation_boundary ⟨some "W", some "B", none⟩
    ⟨none, Except.ok "", Except.error ("em", "et")⟩ "W" "B" "em" "et" rfl rfl
  have h1 := h.1 rfl rfl rfl
  exact ⟨h1.1, h1.2.1⟩

/-- Counterexample to claim C4 as stated: the success path builds
`{"question": ..., "golden_answer": ..., "status": "success", **result}`,
so a worker output that itself binds `status` overrides the engine's
value and the stored status is neither `success` nor `failed`. -/
theorem record_status_override_cx :
    process_item ⟨some "Q", some "A", none⟩
        ⟨none, Except.ok "", Except.ok [("status", "borked")]⟩ =
      Except.ok (successRecord "Q" "A" [("status", "borked")]) ∧
    dictGet (successRecord "Q" "A" [("status", "borked")]) "status" = some "borked" ∧
    dictGet (successRecord "Q" "A" [("status", "borked")]) "status" ≠ some "success" ∧
    dictGet (successRecord "Q" "A" [("status", "borked")]) "status" ≠ some "failed" := by
  refine ⟨rfl, by decide, by decide, by decide⟩

theorem dictGet_successRecord_question_isSome (q g : String) (res : Dict) :
    (dictGet (successRecord q g res) "question").isSome = true := by
  rw [successRecord, dictGet_append]
  cases h : dictGet res "question" <;> simp [dictGet]

theorem dictGet_successRecord_golden_isSome (q g : String) (res : Dict) :
    (dictGet (successRecord q g res) "golden_answer").isSome = true := by
  rw [successRecord, dictGet_append]
  cases h : dictGet res "golden_answer" <;> simp [dictGet]

theorem dictGet_successRecord_status_isSome (q g : String) (res : Dict) :
    (dictGet (successRecord q g res) "status").isSome = true := by
  rw [successRecord, dictGet_append]
  cases h : dictGet res "status" <;> simp [dictGet]

theorem recordNoAttach_fields (qq a : String) (agent : Except (String × String) Dict) :
    (dictGet (recordNoAttach qq a agent) "question").isSome = true ∧
    (dictGet (recordNoAttach qq a agent) "golden_answer").isSome = true ∧
    (dictGet (recordNoAttach qq a agent) "status").isSome = true ∧
    (∀ m tr, agent = Except.error (m, tr) →
      dictGet (recordNoAttach qq a agent) "status" = some "failed" ∧
      dictGet (recordNoAttach qq a agent) "error" = some m ∧
      dictGet (recordNoAttach qq a agent) "error_trace" = some tr ∧
      dictGet (recordNoAttach qq a agent) "question" = some qq ∧
      dictGet (recordNoAttach qq a agent) "golden_answer" = some a) ∧
    (∀ res, agent = Except.ok res →
      (∀ k v, dictGet res k = some v → dictGet (recordNoAttach qq a agent) k = some v) ∧
      (dictGet res "status" = none → dictGet (recordNoAttach qq a agent) "status" = some "success") ∧
      (dictGet res "question" = none → dictGet (recordNoAttach qq a agent) "question" = some qq) ∧
      (dictGet res "golden_answer" = none →
        dictGet (recordNoAttach qq a agent) "golden_answer" = some a)) := by
  cases agent with
  | error p =>
    obtain ⟨m, tr⟩ := p
    refine ⟨by simp [recordNoAttach, failedRecord, dictGet],
      by simp [recordNoAttach, failedRecord, dictGet],
      by simp [recordNoAttach, failedRecord, dictGet], ?_, ?_⟩
    · intro m2 tr2 heq
      obtain ⟨rfl, rfl⟩ : m = m2 ∧ tr = tr2 := by
        constructor <;> injection heq with h2 <;> simp_all
      exact ⟨by simp [recordNoAttach, failedRecord, dictGet],
        by simp [recordNoAttach, failedRecord, dictGet],
        by simp [recordNoAttach, failedRecord, dictGet],
        by simp [recordNoAttach, failedRecord, dictGet],
        by simp [recordNoAttach, failedRecord, dictGet]⟩
    · intro res heq
      cases heq
  | ok res =>
    refine ⟨dictGet_successRecord_question_isSome qq a res,
      dictGet_successRecord_golden_isSome qq a res,
      dictGet_successRecord_status_isSome qq a res, ?_, ?_⟩
    · intro m tr heq
      cases heq
    · intro res2 heq
      obtain rfl : res = res2 := by injection heq
      exact ⟨fun k v h => dictGet_successRecord_of_res qq a k v res h,
        fun h => dictGet_successRecord_status qq a res h,
        fun h => dictGet_successRecord_question qq a res h,
        fun h => dictGet_successRecord_golden qq a res h⟩

/-- Claim C4 (amended): every record returned by `process_item`
contains the keys `question`, `golden_answer` and `status`; on failure
the status is `failed` with `error` and `error_trace`; on success all
worker fields are merged in (a worker binding wins on key collision),
and the status is `success` provided the worker output does not itself
bind `status` (likewise for `question` and `golden_answer`). -/
theorem result_record_fields (it : Item) (ext : ExtBehavior) (q a : String)
    (hc : ext.ctor = none) (hq : it.question = some q) (ha : it.answer = some a)
    (hd : truthyFile it.file_name = false ∨
      ∃ fn dt, it.file_name = some fn ∧ fn ≠ "" ∧ ext.describe = Except.ok dt) :
    ∃ qq rec, process_item it ext = Except.ok rec ∧
      (truthyFile it.file_name = false → qq = q) ∧
      (dictGet rec "question").isSome = true ∧
      (dictGet rec "golden_answer").isSome = true ∧
      (dictGet rec "status").isSome = true ∧
      (∀ m tr, ext.agent = Except.error (m, tr) →
        dictGet rec "status" = some "failed" ∧
        dictGet rec "error" = some m ∧
        dictGet rec "error_trace" = some tr ∧
        dictGet rec "question" = some qq ∧
        dictGet rec "golden_answer" = some a) ∧
      (∀ res, ext.agent = Except.ok res →
        (∀ k v, dictGet res k = some v → dictGet rec k = some v) ∧
        (dictGet res "status" = none → dictGet rec "status" = some "success") ∧
        (dictGet res "question" = none → dictGet rec "question" = some qq) ∧
        (dictGet res "golden_answer" = none → dictGet rec "golden_answer" = some a)) := by
  cases hd with
  | inl hf =>
    refine ⟨q, recordNoAttach q a ext.agent,
      process_item_no_attach it ext q a hc hq ha hf, fun _ => rfl, ?_⟩
    have h := recordNoAttach_fields q a ext.agent
    exact ⟨h.1, h.2.1, h.2.2.1, h.2.2.2.1, h.2.2.2.2⟩
  | inr hex =>
    obtain ⟨fn, dt, hfn, hne, hdok⟩ := hex
    refine ⟨augmentQuestion q fn dt, recordNoAttach (augmentQuestion q fn dt) a ext.agent,
      process_item_attach_ok it ext q a fn dt hc hq ha hfn hne hdok, ?_, ?_⟩
    · intro hf
      rw [hfn] at hf
      simp [truthyFile, hne] at hf
    · have h := recordNoAttach_fields (augmentQuestion q fn dt) a ext.agent
      exact ⟨h.1, h.2.1, h.2.2.1, h.2.2.2.1, h.2.2.2.2⟩

/-- Witness for the amended C4 at a concrete success and its fields. -/
theorem result_record_fields_witness :
    ∃ qq rec, process_item ⟨some "Qz", some "Az", none⟩
        ⟨none, Except.ok "", Except.ok [("agent_result", "ok")]⟩ = Except.ok rec ∧
      dictGet rec "status" = some "success" ∧
      dictGet rec "question" = some qq ∧
      dictGet rec "golden_answer" = some "Az" ∧
      dictGet rec "agent_result" = some "ok" := by
  have h := result_record_fields ⟨some "Qz", some "Az", none⟩
    ⟨none, Except.ok "", Except.ok [("agent_result", "ok")]⟩ "Qz" "Az"
    rfl rfl rfl (Or.inl rfl)
  obtain ⟨qq, rec, hrun, _, _, _, _, _, hsucc⟩ := h
  obtain ⟨hmerge, hstat, hquest, hgold⟩ := hsucc [("agent_result", "ok")] rfl
  exact ⟨qq, rec, hrun, hstat (by decide), hquest (by decide), hgold (by decide),
    hmerge "agent_result" "ok" (by decide)⟩

/-- Counterexample to claim C3 as stated: two input items sharing one
question are both dispatched against an empty store and yield two
records with equal questions (not distinct); a one-item input with a
truthy attachment yields a record whose question is the augmented
text, matching no question of the input set; and a worker output that
itself binds `question` overrides the stored question, which then
matches no input question either. -/
theorem full_run_distinct_cx :
    runEngine [⟨some "Q", some "A1", none⟩, ⟨some "Q", some "A2", none⟩]
        (fun _ => ⟨none, Except.ok "", Except.ok [("agent_result", "ok")]⟩) [] =
      Except.ok [successRecord "Q" "A1" [("agent_result", "ok")],
        successRecord "Q" "A2" [("agent_result", "ok")]] ∧
    ¬ ([successRecord "Q" "A1" [("agent_result", "ok")],
        successRecord "Q" "A2" [("agent_result", "ok")]].map
        (fun r => dictGet r "question")).Nodup ∧
    runEngine [⟨some "Qf", some "A", some "img.png"⟩]
        (fun _ => ⟨none, Except.ok "D", Except.ok [("agent_result", "ok")]⟩) [] =
      Except.ok [successRecord (augmentQuestion "Qf" "img.png" "D") "A"
        [("agent_result", "ok")]] ∧
    dictGet (successRecord (augmentQuestion "Qf" "img.png" "D") "A"
        [("agent_result", "ok")]) "question" = some (augmentQuestion "Qf" "img.png" "D") ∧
    ([⟨some "Qf", some "A", some "img.png"⟩] : List Item).map Item.question = [some "Qf"] ∧
    augmentQuestion "Qf" "img.png" "D" ≠ "Qf" ∧
    runEngine [⟨some "Qo", some "Ao", none⟩]
        (fun _ => ⟨none, Except.ok "", Except.ok [("question", "HJ")]⟩) [] =
      Except.ok [successRecord "Qo" "Ao" [("question", "HJ")]] ∧
    dictGet (successRecord "Qo" "Ao" [("question", "HJ")]) "question" = some "HJ" ∧
    ([⟨some "Qo", some "Ao", none⟩] : List Item).map Item.question = [some "Qo"] ∧
    (some "HJ" : Option String) ≠ some "Qo" := by
  refine ⟨rfl, by decide, rfl, rfl, rfl, augmentQuestion_ne "Qf" "img.png" "D",
    rfl, by decide, rfl, by decide⟩

/-- Claim C3 (amended): a full run of N items against an empty store,
in any completion order and with every worker task returning a record
(keys present, construction succeeding, any truthy attachment
described successfully), appends exactly N ResultRecords, one per
input item; when the worker output does not bind the key `question`,
each record carries that item's possibly-attachment-augmented
question, and hence when additionally no item has a truthy attachment
and the input questions are pairwise distinct, the stored questions
are distinct and each matches a question of the input set. -/
theorem full_run_output (data : List Item) (ext : Item → ExtBehavior) (order : List Item)
    (hperm : List.Perm order (pendingItems data []))
    (hok : ∀ it ∈ data, it.question.isSome = true ∧ it.answer.isSome = true ∧
      (ext it).ctor = none ∧
      (truthyFile it.file_name = false ∨ ∃ d, (ext it).describe = Except.ok d)) :
    ∃ recs, runEngine order ext [] = Except.ok recs ∧
      recs.length = data.length ∧
      ((∀ it ∈ data, ∀ res, (ext it).agent = Except.ok res → dictGet res "question" = none) →
        recs.map (fun r => dictGet r "question") =
          order.map (fun it => some (storedQuestionText it (ext it))) ∧
        List.Perm (recs.map (fun r => dictGet r "question"))
          (data.map (fun it => some (storedQuestionText it (ext it)))) ∧
        ((∀ it ∈ data, truthyFile it.file_name = false) →
          (∀ r ∈ recs, dictGet r "question" ∈ data.map Item.question) ∧
          ((data.map Item.question).Nodup →
            (recs.map (fun r => dictGet r "question")).Nodup))) := by
  have hmemdata : ∀ it ∈ order, it ∈ data := by
    intro it hit
    have hmem := hperm.mem_iff.mp hit
    rwa [pendingItems_nil_out] at hmem
  set f : Item → Dict := fun it =>
    recordNoAttach (storedQuestionText it (ext it)) (it.answer.getD "") ((ext it).agent)
    with hf
  have hpi : ∀ it ∈ order, process_item it (ext it) = Except.ok (f it) := by
    intro it hit
    obtain ⟨hq, ha, hc, hdok⟩ := hok it (hmemdata it hit)
    obtain ⟨q, hq2⟩ := Option.isSome_iff_exists.mp hq
    obtain ⟨a, ha2⟩ := Option.isSome_iff_exists.mp ha
    by_cases hfile : truthyFile it.file_name = true
    · obtain ⟨fn, hfn, hne⟩ := truthyFile_eq_true it.file_name hfile
      obtain ⟨d, hd⟩ : ∃ d, (ext it).describe = Except.ok d := by
        cases hdok with
        | inl h0 => rw [hfile] at h0; cases h0
        | inr h0 => exact h0
      have heq : f it = recordNoAttach (augmentQuestion q fn d) a ((ext it).agent) := by
        simp [hf, storedQuestionText, truthyFile, hfile, hq2, ha2, hfn, hd, hne]
      rw [heq]
      exact process_item_attach_ok it (ext it) q a fn d hc hq2 ha2 hfn hne hd
    · have hfile2 : truthyFile it.file_name = false := by simpa using hfile
      have heq : f it = recordNoAttach q a ((ext it).agent) := by
        simp [hf, storedQuestionText, hfile2, hq2, ha2]
      rw [heq]
      exact process_item_no_attach it (ext it) q a hc hq2 ha2 hfile2
  have hne : ∀ it ∈ order, f it ≠ [] := fun it _ => recordNoAttach_ne_nil _ _ _
  have hrun := runEngine_ok order ext [] f hpi hne
  refine ⟨order.map f, by simpa using hrun, ?_, ?_⟩
  · rw [List.length_map]
    have hlen := hperm.length_eq
    rwa [pendingItems_nil_out] at hlen
  · intro hnoov
    have hqof : ∀ it ∈ order, dictGet (f it) "question" =
        some (storedQuestionText it (ext it)) := by
      intro it hit
      exact recordNoAttach_question _ _ _ (hnoov it (hmemdata it hit))
    have hmapeq : (order.map f).map (fun r => dictGet r "question") =
        order.map (fun it => some (storedQuestionText it (ext it))) := by
      rw [List.map_map]
      exact List.map_congr_left hqof
    have hpermq : List.Perm (order.map (fun it => some (storedQuestionText it (ext it))))
        (data.map (fun it => some (storedQuestionText it (ext it)))) := by
      have hm := hperm.map (fun it => some (storedQuestionText it (ext it)))
      rwa [pendingItems_nil_out] at hm
    refine ⟨hmapeq, by rw [hmapeq]; exact hpermq, ?_⟩
    intro hallnoatt
    have hsq : ∀ it ∈ data, some (storedQuestionText it (ext it)) = it.question := by
      intro it hit
      obtain ⟨hq, _, _, _⟩ := hok it hit
      obtain ⟨q, hq2⟩ := Option.isSome_iff_exists.mp hq
      simp [storedQuestionText, hallnoatt it hit, hq2]
    have hdata_eq : data.map (fun it => some (storedQuestionText it (ext it))) =
        data.map Item.question :=
      List.map_congr_left hsq
    rw [hdata_eq] at hpermq
    constructor
    · intro r hr
      obtain ⟨it, hit, rfl⟩ := List.mem_map.1 hr
      rw [hqof it hit]
      exact hpermq.mem_iff.mp
        (List.mem_map_of_mem (fun it => some (storedQuestionText it (ext it))) hit)
    · intro hnd
      rw [hmapeq]
      exact hpermq.nodup_iff.mpr hnd

/-- Witness for the amended C3: a concrete one-item run against an
empty store appends exactly one record. -/
theorem full_run_output_witness :
    ∃ recs, runEngine [⟨some "Qx", some "Ax", none⟩]
        (fun _ => ⟨none, Except.ok "", Except.ok [("agent_result", "ok")]⟩) [] =
      Except.ok recs ∧ recs.length = 1 := by
  have h := full_run_output [⟨some "Qx", some "Ax", none⟩]
    (fun _ => ⟨none, Except.ok "", Except.ok [("agent_result", "ok")]⟩)
    [⟨some "Qx", some "Ax", none⟩]
    (by rw [pendingItems_nil_out])
    (by
      intro it hit
      have : it = (⟨some "Qx", some "Ax", none⟩ : Item) := by simpa using hit
      subst this
      exact ⟨rfl, rfl, rfl, Or.inl rfl⟩)
  obtain ⟨recs, h1, h2, _⟩ := h
  exact ⟨recs, h1, h2⟩
